import Mathlib

/-!
Verification development for the Lib2Vec Liberty-parsing scripts.

Text-processing code is embedded over `List Char`; Python floats are
modelled as exact rationals (`ℚ`) for the parsing and interpolation
layers, and as reals (`ℝ`) for the logarithmic sampling layer, since the
latter uses the transcendental functions log and exp. Python exceptions
are modelled with `Option`; a caught exception corresponds to a `none`
propagated to the handler expression.
-/

/-- Character class of the Python regex token backslash-s and of
Python str.strip with no argument: space, tab, newline, carriage
return, vertical tab, form feed. -/
def isPySpace (c : Char) : Bool :=
  c = ' ' || c = '\t' || c = '\n' || c = '\r' || c = '\x0b' || c = '\x0c'

/-- Python str.strip with no argument: remove leading and trailing
whitespace characters. -/
def trimChars (l : List Char) : List Char :=
  ((l.dropWhile isPySpace).reverse.dropWhile isPySpace).reverse

/-- Python str.strip applied to the one-character set containing the
double quote: remove all leading and trailing double-quote characters. -/
def stripQuotes (l : List Char) : List Char :=
  ((l.dropWhile (fun c => c = '"')).reverse.dropWhile (fun c => c = '"')).reverse

/-- Python substring containment test, `needle in hay`. -/
def containsSub (needle : List Char) : List Char → Bool
  | [] => needle.isEmpty
  | c :: rest => needle.isPrefixOf (c :: rest) || containsSub needle rest

/-- Match a literal character sequence at the start of the input,
returning the remainder on success. First argument is the pattern. -/
def dropPrefixCh : List Char → List Char → Option (List Char)
  | [], l => some l
  | _ :: _, [] => none
  | p :: ps, c :: cs => if c = p then dropPrefixCh ps cs else none

/-- Python line.find of two slashes followed by truncation: keep the
characters of the line strictly before the first occurrence of
two consecutive slashes. Embeds the per-line step of
CompleteLib2VecLibertyParser._remove_comments_optimized (tesst.py,
lines 106-110) and the identical step of test.py, lines 68-72. -/
def truncAtSlashes : List Char → List Char
  | [] => []
  | '/' :: '/' :: _ => []
  | c :: rest => c :: truncAtSlashes rest

/-- Line-comment pass of _remove_comments_optimized: split the content
on newlines, truncate every line at the first double slash, join the
lines back with newlines. -/
def stripLineComments (content : List Char) : List Char :=
  List.intercalate ['\n'] ((content.splitOn '\n').map truncAtSlashes)

/-- Scan for the closest star-slash block-comment terminator and
return the characters after it, or none when the input has no
terminator. Used for the non-greedy regex removal of block comments. -/
def dropToClose : List Char → Option (List Char)
  | [] => none
  | '*' :: '/' :: rest => some rest
  | _ :: rest => dropToClose rest

/-- Fueled scan deleting every non-greedy slash-star ... star-slash
span, continuing after the deleted span, as re.sub with an empty
replacement and DOTALL does in _remove_comments_optimized. An
unterminated opener matches nothing and is kept verbatim. Fuel equal
to the input length always suffices because every step consumes at
least one character. -/
def removeBlockCommentsAux : ℕ → List Char → List Char
  | 0, l => l
  | _, [] => []
  | fuel + 1, '/' :: '*' :: rest =>
    (match dropToClose rest with
     | some r => removeBlockCommentsAux fuel r
     | none => '/' :: '*' :: rest)
  | fuel + 1, c :: rest => c :: removeBlockCommentsAux fuel rest

/-- Block-comment pass of _remove_comments_optimized. -/
def removeBlockComments (l : List Char) : List Char :=
  removeBlockCommentsAux l.length l

/-- CompleteLib2VecLibertyParser._remove_comments_optimized (tesst.py,
lines 90-121) and OptimizedLib2VecLibertyParser._remove_comments_optimized
(test.py, lines 57-79): line comments are removed line by line with a
plain substring search that ignores quoting, then block comments are
removed by a regex substitution. Progress printing is I/O and is not
modelled. -/
def remove_comments_optimized (content : List Char) : List Char :=
  removeBlockComments (stripLineComments content)

/-- Decimal digit run to a natural number. -/
def digitsToNat (ds : List Char) : ℕ :=
  ds.foldl (fun a c => a * 10 + (c.toNat - 48)) 0

/-- Exponent digits of a float literal: all remaining characters must
be digits, at least one. -/
def parseExpDigits (m : ℚ) (negE : Bool) (u : List Char) : Option ℚ :=
  let ds := u.takeWhile Char.isDigit
  if ds = [] ∨ u.dropWhile Char.isDigit ≠ [] then none
  else some (if negE then m / (10 : ℚ) ^ digitsToNat ds else m * (10 : ℚ) ^ digitsToNat ds)

/-- Optional sign of a float-literal exponent. -/
def parseExpPart (m : ℚ) (t : List Char) : Option ℚ :=
  match t with
  | '+' :: u => parseExpDigits m false u
  | '-' :: u => parseExpDigits m true u
  | u => parseExpDigits m false u

/-- Unsigned part of a float literal: digits, optional point and
fraction digits, optional exponent. At least one digit must be present
before or after the point. -/
def parseFloatCore (l : List Char) : Option ℚ :=
  let intDs := l.takeWhile Char.isDigit
  let r1 := l.dropWhile Char.isDigit
  let fracDs := match r1 with
    | '.' :: t => t.takeWhile Char.isDigit
    | _ => []
  let r2 := match r1 with
    | '.' :: t => t.dropWhile Char.isDigit
    | _ => r1
  if intDs = [] ∧ fracDs = [] then none
  else
    let mant : ℚ := (digitsToNat (intDs ++ fracDs) : ℚ) / (10 : ℚ) ^ fracDs.length
    match r2 with
    | [] => some mant
    | 'e' :: t => parseExpPart mant t
    | 'E' :: t => parseExpPart mant t
    | _ => none

/-- Model of the Python builtin float applied to a string: whitespace
is stripped, then an optionally signed finite decimal literal with
optional exponent is accepted; anything else raises, modelled as none.
The special spellings inf and nan are not representable in ℚ and are
outside this model; no input in this development uses them. -/
def parseFloat? (s : List Char) : Option ℚ :=
  match trimChars s with
  | '+' :: r => parseFloatCore r
  | '-' :: r => (parseFloatCore r).map (fun x => -x)
  | r => parseFloatCore r

/-- Comma-separated float list, as in the list comprehension
float of x.strip for x in s.split on comma, inside
ASAP7Parser._parse_lookup_table (test_utf8.py, lines 333 and 338).
A failure of any entry aborts the whole list, as the raised
exception does. -/
def parseFloatList? (l : List Char) : Option (List ℚ) :=
  (l.splitOn ',').mapM (fun x => parseFloat? (trimChars x))

/-- Python str.split with no argument: split on runs of whitespace,
discarding empty pieces. -/
def pySplitWs (l : List Char) : List (List Char) :=
  ((l.map (fun c => if isPySpace c then ' ' else c)).splitOn ' ').filter (fun x => x ≠ [])

/-- Values-matrix parsing of ASAP7Parser._parse_lookup_table
(test_utf8.py, lines 340-351): split the quoted string on backslash
line-continuation markers, strip and drop blank lines, replace commas
by spaces in each line, split on whitespace, parse every entry as a
float, and keep the nonempty rows. A float failure anywhere aborts
everything, as the raised exception does. -/
def parseValuesMatrix? (l : List Char) : Option (List (List ℚ)) :=
  let lines := ((l.splitOn '\\').map trimChars).filter (fun x => x ≠ [])
  (lines.mapM (fun line =>
    (pySplitWs (line.map (fun c => if c = ',' then ' ' else c))).mapM
      (fun x => parseFloat? (trimChars x)))).map
    (fun rows => rows.filter (fun r => r ≠ []))

/-- Raw textual content of the three attributes of a Liberty lookup
table group as the liberty library hands them to
ASAP7Parser._parse_lookup_table; a missing attribute is none,
mirroring the hasattr guards. -/
structure RawTable where
  index_1 : Option (List Char)
  index_2 : Option (List Char)
  values : Option (List Char)

/-- Parsed lookup-table record built by _parse_lookup_table: the
dictionary with keys index_1, index_2 and values, all initialised
empty. -/
structure TableInfo where
  index_1 : List ℚ
  index_2 : List ℚ
  values : List (List ℚ)

/-- Third step of _parse_lookup_table: the values attribute. On a
parse failure the exception handler returns the record as filled so
far. -/
def parseTableStep3 (ti : TableInfo) (t : RawTable) : TableInfo :=
  match t.values with
  | none => ti
  | some s =>
    match parseValuesMatrix? (stripQuotes s) with
    | none => ti
    | some m => { ti with values := m }

/-- Second step of _parse_lookup_table: the index_2 attribute. On a
parse failure the exception handler returns the record as filled so
far, without attempting the values attribute. -/
def parseTableStep2 (ti : TableInfo) (t : RawTable) : TableInfo :=
  match t.index_2 with
  | none => parseTableStep3 ti t
  | some s =>
    match parseFloatList? (stripQuotes s) with
    | none => ti
    | some l2 => parseTableStep3 { ti with index_2 := l2 } t

/-- ASAP7Parser._parse_lookup_table (test_utf8.py, lines 313-356):
parse index_1, index_2 and values in order inside one try block whose
except clause logs a warning and returns the partially filled record.
No shape validation is performed and no failure value is ever
returned: the result is always a TableInfo. -/
def parse_lookup_table (t : RawTable) : TableInfo :=
  let ti : TableInfo := ⟨[], [], []⟩
  match t.index_1 with
  | none => parseTableStep2 ti t
  | some s =>
    match parseFloatList? (stripQuotes s) with
    | none => ti
    | some l1 => parseTableStep2 { ti with index_1 := l1 } t

/-- Checked two-dimensional access values i j, modelling the Python
IndexError raised by out-of-range indexing as none. -/
def getV? (values : List (List ℚ)) (i j : ℕ) : Option ℚ :=
  values[i]?.bind (fun row => row[j]?)

/-- Fueled form of the bracketing-index loop: advance while the next
axis entry is strictly below the query. Fuel bounding the number of
remaining advances keeps the recursion structural; the loop advances
at most length minus one times, so fuel equal to the axis length
always suffices. -/
def bracketFuel : ℕ → List ℚ → ℚ → ℕ → ℕ
  | 0, _, _, i1 => i1
  | fuel + 1, idx, q, i1 =>
    if i1 + 1 < idx.length ∧ idx.getD (i1 + 1) 0 < q then
      bracketFuel fuel idx q (i1 + 1)
    else i1

/-- Bracketing-index search of ASAP7Parser.interpolate_timing_value
(test_utf8.py, lines 498-500 and 504-506): starting from i1, advance
while the next axis entry is strictly below the query. -/
def bracketAux (idx : List ℚ) (q : ℚ) (i1 : ℕ) : ℕ :=
  bracketFuel idx.length idx q i1

/-- Arithmetic core of ASAP7Parser.interpolate_timing_value
(test_utf8.py, lines 496-532), the body of the try block: bracket both
axes, then return a direct lookup, a linear blend along one axis, or
the full bilinear blend. A zero denominator (ZeroDivisionError) or an
out-of-range values access (IndexError) is modelled as none, which the
except clause turns into the value 0.0. -/
def interpolateCore (t : TableInfo) (slew load : ℚ) : Option ℚ :=
  let i1 := bracketAux t.index_1 slew 0
  let i2 := min (i1 + 1) (t.index_1.length - 1)
  let j1 := bracketAux t.index_2 load 0
  let j2 := min (j1 + 1) (t.index_2.length - 1)
  if i1 = i2 ∧ j1 = j2 then getV? t.values i1 j1
  else if i1 = i2 then
    let d := t.index_2.getD j2 0 - t.index_2.getD j1 0
    if d = 0 then none
    else
      let tt := (load - t.index_2.getD j1 0) / d
      (getV? t.values i1 j1).bind (fun a =>
        (getV? t.values i1 j2).bind (fun b =>
          some (a * (1 - tt) + b * tt)))
  else if j1 = j2 then
    let d := t.index_1.getD i2 0 - t.index_1.getD i1 0
    if d = 0 then none
    else
      let tt := (slew - t.index_1.getD i1 0) / d
      (getV? t.values i1 j1).bind (fun a =>
        (getV? t.values i2 j1).bind (fun b =>
          some (a * (1 - tt) + b * tt)))
  else
    let dx := t.index_1.getD i2 0 - t.index_1.getD i1 0
    let dy := t.index_2.getD j2 0 - t.index_2.getD j1 0
    if dx = 0 ∨ dy = 0 then none
    else
      let t1 := (slew - t.index_1.getD i1 0) / dx
      let t2 := (load - t.index_2.getD j1 0) / dy
      (getV? t.values i1 j1).bind (fun v11 =>
        (getV? t.values i1 j2).bind (fun v12 =>
          (getV? t.values i2 j1).bind (fun v21 =>
            (getV? t.values i2 j2).bind (fun v22 =>
              some (v11 * (1 - t1) * (1 - t2) + v21 * t1 * (1 - t2) +
                    v12 * (1 - t1) * t2 + v22 * t1 * t2)))))

/-- ASAP7Parser.interpolate_timing_value (test_utf8.py, lines
473-536): a missing table or a table with an empty values list, or
empty index_1, index_2 or values fields, yields 0.0 at once; any
exception inside the interpolation body is caught and also yields
0.0. -/
def interpolate_timing_value (t? : Option TableInfo) (slew load : ℚ) : ℚ :=
  match t? with
  | none => 0
  | some t =>
    if t.values = [] then 0
    else if t.index_1 = [] ∨ t.index_2 = [] ∨ t.values = [] then 0
    else (interpolateCore t slew load).getD 0

/-- Group-header matcher for the regex kw, optional whitespace, an
opening parenthesis, optional whitespace, a nonempty run of characters
other than a closing parenthesis captured as the name, optional
whitespace, a closing parenthesis, optional whitespace, an opening
brace. Returns the name, processed as group(1).strip().strip(quote)
is in the sources, together with the remainder of the input after the
brace. The captured group of the Python regex may keep leading
whitespace that the greedy whitespace star already consumed only when
the name is pure whitespace; since the callers always strip the group,
capturing the whole span between the parentheses is equivalent. -/
def matchGroupHeader (kw : List Char) (l : List Char) : Option (List Char × List Char) :=
  match dropPrefixCh kw l with
  | none => none
  | some r1 =>
    match r1.dropWhile isPySpace with
    | '(' :: r3 =>
      let nmRaw := r3.takeWhile (fun c => c ≠ ')')
      match r3.dropWhile (fun c => c ≠ ')') with
      | ')' :: r5 =>
        if nmRaw = [] then none
        else
          match r5.dropWhile isPySpace with
          | '{' :: r7 => some (stripQuotes (trimChars nmRaw), r7)
          | _ => none
      | _ => none
    | _ => none

/-- Brace-matching loop of
CompleteLib2VecLibertyParser._extract_cell_body (tesst.py, lines
213-231), at a given current depth: increment on an opening brace,
decrement on a closing brace, stop when the depth returns to zero and
return the span scanned so far without the final closing brace; none
when the input ends first. -/
def extractBodyAux : ℕ → List Char → Option (List Char)
  | _, [] => none
  | depth, c :: rest =>
    let d := if c = '{' then depth + 1 else if c = '}' then depth - 1 else depth
    if d = 0 then some []
    else
      match extractBodyAux d rest with
      | none => none
      | some b => some (c :: b)

/-- CompleteLib2VecLibertyParser._extract_cell_body applied at the
position just after the opening brace of a group header: initial
depth one. -/
def extract_cell_body (l : List Char) : Option (List Char) :=
  extractBodyAux 1 l

/-- Fueled scan of CompleteLib2VecLibertyParser._extract_cells_complete
(tesst.py, lines 170-211): finditer locates every cell-header match of
the cell regex, scanning left to right and resuming after the opening
brace of each match; for each header the cell body is extracted from
the full text by brace matching. Fuel equal to the input length always
suffices because each step consumes at least one character. Returns
the headers in order, each with its optional extracted body. -/
def extractCellsAux : ℕ → List Char → List (List Char × Option (List Char))
  | 0, _ => []
  | _, [] => []
  | fuel + 1, c :: rest =>
    match matchGroupHeader ("cell".toList) (c :: rest) with
    | some (nm, after) => (nm, extract_cell_body after) :: extractCellsAux fuel after
    | none => extractCellsAux fuel rest

/-- All cell headers of the text with their optional bodies, in
source order. -/
def extractCells (l : List Char) : List (List Char × Option (List Char)) :=
  extractCellsAux l.length l

/-- Matcher for the scalar-attribute regex key, optional whitespace, a
colon, a capture of at least one character other than a semicolon, a
semicolon; anchored at the start of the input. The Python capture
excludes whitespace already consumed by the greedy whitespace star
after the colon except when the value is pure whitespace; all callers
strip the capture, so capturing the whole span up to the semicolon is
equivalent. -/
def matchAttrAt (key l : List Char) : Option (List Char) :=
  match dropPrefixCh key l with
  | none => none
  | some r1 =>
    match r1.dropWhile isPySpace with
    | ':' :: r3 =>
      let cap := r3.takeWhile (fun c => c ≠ ';')
      match r3.dropWhile (fun c => c ≠ ';') with
      | ';' :: _ => if cap = [] then none else some cap
      | _ => none
    | _ => none

/-- re.search of the scalar-attribute regex: first position at which
the full pattern matches. -/
def searchAttr (key : List Char) : List Char → Option (List Char)
  | [] => none
  | c :: rest =>
    match matchAttrAt key (c :: rest) with
    | some v => some v
    | none => searchAttr key rest

/-- Matcher for the function-attribute regex: the word function,
optional whitespace, a colon, optional whitespace, a double quote, a
nonempty capture of characters other than a double quote, a closing
double quote; anchored at the start of the input. -/
def matchFuncAt (l : List Char) : Option (List Char) :=
  match dropPrefixCh ("function".toList) l with
  | none => none
  | some r1 =>
    match r1.dropWhile isPySpace with
    | ':' :: r3 =>
      match r3.dropWhile isPySpace with
      | '"' :: r5 =>
        let cap := r5.takeWhile (fun c => c ≠ '"')
        match r5.dropWhile (fun c => c ≠ '"') with
        | '"' :: _ => if cap = [] then none else some cap
        | _ => none
      | _ => none
    | _ => none

/-- re.search of the function-attribute regex. -/
def searchFunc : List Char → Option (List Char)
  | [] => none
  | c :: rest =>
    match matchFuncAt (c :: rest) with
    | some v => some v
    | none => searchFunc rest

/-- Scalar fields of the cell record built by
CompleteLib2VecLibertyParser._parse_single_cell_complete (tesst.py,
lines 233-277). The pin sub-extraction and the arc counters of the
source are not referenced by any verified property and are omitted
from the record. -/
structure CellInfo where
  name : List Char
  area : ℚ
  leakage_power : ℚ
  cell_footprint : Option (List Char)
  function : Option (List Char)

/-- CompleteLib2VecLibertyParser._parse_single_cell_complete: the
area and leakage attributes are searched with the scalar regex and
coerced with float inside a try whose except stores 0.0; the
footprint is stripped of whitespace and quotes; the function is the
first quoted function attribute anywhere in the body. This function
is total: no path of the source raises out of it. -/
def parse_single_cell_complete (nm body : List Char) : CellInfo :=
  { name := nm
  , area := match searchAttr ("area".toList) body with
            | some v => (parseFloat? v).getD 0
            | none => 0
  , leakage_power := match searchAttr ("cell_leakage_power".toList) body with
            | some v => (parseFloat? v).getD 0
            | none => 0
  , cell_footprint := (searchAttr ("cell_footprint".toList) body).map
      (fun v => stripQuotes (trimChars v))
  , function := searchFunc body }

/-- Key list of the Python dictionary self.cells, in insertion
order. -/
def cellKeys (m : List (List Char × CellInfo)) : List (List Char) :=
  m.map Prod.fst

/-- Python dictionary assignment self.cells at cell_name: an existing
key keeps its position and gets the new value, a new key is appended. -/
def upsertCell (k : List Char) (v : CellInfo) (m : List (List Char × CellInfo)) :
    List (List Char × CellInfo) :=
  if k ∈ cellKeys m then
    m.map (fun p => if p.1 = k then (k, v) else p)
  else m ++ [(k, v)]

/-- Per-header step of the cell loop in _extract_cells_complete: a
header whose body extraction failed is only reported and skipped; a
header with a body is parsed and stored in the cell dictionary. -/
def processCellsStep (m : List (List Char × CellInfo)) (p : List Char × Option (List Char)) :
    List (List Char × CellInfo) :=
  match p.2 with
  | some body => upsertCell p.1 (parse_single_cell_complete p.1 body) m
  | none => m

/-- Cell dictionary produced by the loop of _extract_cells_complete
over the located headers. -/
def processCells (hs : List (List Char × Option (List Char))) : List (List Char × CellInfo) :=
  hs.foldl processCellsStep []

/-- ASAP7Parser._determine_cell_type (test_utf8.py, lines 358-423):
drop the name suffix from the first lowercase x on, then test the
base-function tokens in the fixed source order INV, BUF, NAND, NOR,
AND, OR, XOR, XNOR, appending the first digit token found among 2, 3,
4 for the arity-bearing branches, and fall back to the stripped base
name. The function-expression argument is never used by the source. -/
def determine_cell_type (cell_name _fn : List Char) : List Char :=
  let base_name := cell_name.takeWhile (fun c => c ≠ 'x')
  if containsSub ("INV".toList) base_name then "INV".toList
  else if containsSub ("BUF".toList) base_name then "BUF".toList
  else if containsSub ("NAND".toList) base_name then
    (if containsSub ("2".toList) base_name then "NAND2".toList
     else if containsSub ("3".toList) base_name then "NAND3".toList
     else if containsSub ("4".toList) base_name then "NAND4".toList
     else "NAND".toList)
  else if containsSub ("NOR".toList) base_name then
    (if containsSub ("2".toList) base_name then "NOR2".toList
     else if containsSub ("3".toList) base_name then "NOR3".toList
     else if containsSub ("4".toList) base_name then "NOR4".toList
     else "NOR".toList)
  else if containsSub ("AND".toList) base_name then
    (if containsSub ("2".toList) base_name then "AND2".toList
     else if containsSub ("3".toList) base_name then "AND3".toList
     else if containsSub ("4".toList) base_name then "AND4".toList
     else "AND".toList)
  else if containsSub ("OR".toList) base_name then
    (if containsSub ("2".toList) base_name then "OR2".toList
     else if containsSub ("3".toList) base_name then "OR3".toList
     else if containsSub ("4".toList) base_name then "OR4".toList
     else "OR".toList)
  else if containsSub ("XOR".toList) base_name then
    (if containsSub ("2".toList) base_name then "XOR2".toList else "XOR".toList)
  else if containsSub ("XNOR".toList) base_name then
    (if containsSub ("2".toList) base_name then "XNOR2".toList else "XNOR".toList)
  else base_name

/-- OptimizedLib2VecLibertyParser._infer_cell_type (test.py, lines
254-283): lowercase the name, then test the tokens in the fixed
source order and, and or, then inv or not, xor, nand, nor, buf, mux,
dff or latch, falling back to a pin-count bucket. -/
def infer_cell_type (cell_name : List Char) (pin_count : ℕ) : List Char :=
  let name_lower := cell_name.map Char.toLower
  if containsSub ("and".toList) name_lower then "AND".toList
  else if containsSub ("or".toList) name_lower then "OR".toList
  else if containsSub ("inv".toList) name_lower || containsSub ("not".toList) name_lower then
    "INV".toList
  else if containsSub ("xor".toList) name_lower then "XOR".toList
  else if containsSub ("nand".toList) name_lower then "NAND".toList
  else if containsSub ("nor".toList) name_lower then "NOR".toList
  else if containsSub ("buf".toList) name_lower then "BUF".toList
  else if containsSub ("mux".toList) name_lower then "MUX".toList
  else if containsSub ("dff".toList) name_lower || containsSub ("latch".toList) name_lower then
    "SEQ".toList
  else if pin_count ≤ 3 then "BASIC".toList
  else if pin_count ≤ 6 then "MEDIUM".toList
  else "COMPLEX".toList

/-- Minimum of a nonempty rational list, as the Python builtin min on
a list; the empty case never occurs behind the nonemptiness guards of
the source. -/
def qListMin : List ℚ → ℚ
  | [] => 0
  | h :: t => t.foldl min h

/-- Maximum of a nonempty rational list, as the Python builtin max. -/
def qListMax : List ℚ → ℚ
  | [] => 0
  | h :: t => t.foldl max h

/-- Global slew minimum of ASAP7Parser.generate_input_conditions
(test_utf8.py, lines 438-452): fold min over the index_1 entries of
every present table, starting from float inf, modelled as the top
element of EReal. The nested loops over cells, arcs and the four
delay-table kinds are flattened into one list of optional tables. -/
noncomputable def foldMinSlew (ts : List (Option TableInfo)) : EReal :=
  ts.foldl (fun m t? =>
    match t? with
    | some t => if t.index_1 ≠ [] then min m ((qListMin t.index_1 : ℝ) : EReal) else m
    | none => m) ⊤

/-- Global slew maximum: fold max starting from 0. -/
noncomputable def foldMaxSlew (ts : List (Option TableInfo)) : EReal :=
  ts.foldl (fun m t? =>
    match t? with
    | some t => if t.index_1 ≠ [] then max m ((qListMax t.index_1 : ℝ) : EReal) else m
    | none => m) 0

/-- Global load minimum over the index_2 entries, starting from
float inf. -/
noncomputable def foldMinLoad (ts : List (Option TableInfo)) : EReal :=
  ts.foldl (fun m t? =>
    match t? with
    | some t => if t.index_2 ≠ [] then min m ((qListMin t.index_2 : ℝ) : EReal) else m
    | none => m) ⊤

/-- Global load maximum over the index_2 entries, starting from 0. -/
noncomputable def foldMaxLoad (ts : List (Option TableInfo)) : EReal :=
  ts.foldl (fun m t? =>
    match t? with
    | some t => if t.index_2 ≠ [] then max m ((qListMax t.index_2 : ℝ) : EReal) else m
    | none => m) 0

/-- numpy.linspace of a, b with n points: n evenly spaced values; for
n at least 2 the last point is exactly b, for n equal 1 the single
point is a (the division by zero in the model is the Lean convention
x / 0 = 0, giving a, the numpy value). -/
noncomputable def linspace (a b : ℝ) (n : ℕ) : List ℝ :=
  (List.range n).map (fun i : ℕ => a + (b - a) * (i : ℝ) / ((n : ℝ) - 1))

/-- Log-space sampling of one axis in generate_input_conditions
(test_utf8.py, lines 454-462): exp of a linspace between the logs of
the bounds. -/
noncomputable def logSamples (mn mx : ℝ) (n : ℕ) : List ℝ :=
  (linspace (Real.log mn) (Real.log mx) n).map Real.exp

/-- ASAP7Parser.generate_input_conditions (test_utf8.py, lines
425-471): compute the global axis bounds, sample each axis in log
space, and return the full cross product of slew and load samples.
When no table contributes, the Python bounds stay at inf and 0 and
numpy produces NaN-valued conditions without raising; NaN is outside
ℝ, so in that case the model fixes no particular sample values, and
only the structure of the result, in particular its length, reflects
the source. No path of the source raises. -/
noncomputable def generate_input_conditions (ts : List (Option TableInfo))
    (numSlew numLoad : ℕ) : List (ℝ × ℝ) :=
  let slewPts := logSamples (foldMinSlew ts).toReal (foldMaxSlew ts).toReal numSlew
  let loadPts := logSamples (foldMinLoad ts).toReal (foldMaxLoad ts).toReal numLoad
  slewPts.flatMap (fun s => loadPts.map (fun ld => (s, ld)))

/-! Theorems. -/

/-- Claim C1 (code evidence): the comment stripper truncates a line at
a double slash that lies strictly inside a double-quoted string
literal, mutating the quoted text, because it scans each line with a
plain substring search and tracks no quote state. -/
theorem remove_comments_mutates_quoted_string :
    remove_comments_optimized (("x : \"a//b\";").toList) = ("x : \"a").toList ∧
    ("x : \"a").toList ≠ ("x : \"a//b\";").toList := by
  constructor
  · rfl
  · decide

/-- Claim C10: the interpolator returns 0.0 for a missing table, for a
table with an empty index or values field, and whenever the
interpolation body fails internally; and a well-formed table holding a
genuine 0.0 entry returns that same 0.0, so the three situations are
indistinguishable to the caller. -/
theorem interpolate_returns_zero_on_missing_or_error :
    (∀ slew load : ℚ, interpolate_timing_value none slew load = 0) ∧
    (∀ (t : TableInfo) (slew load : ℚ),
      t.index_1 = [] ∨ t.index_2 = [] ∨ t.values = [] →
      interpolate_timing_value (some t) slew load = 0) ∧
    (∀ (t : TableInfo) (slew load : ℚ), interpolateCore t slew load = none →
      interpolate_timing_value (some t) slew load = 0) ∧
    interpolate_timing_value (some ⟨[1], [1], [[0]]⟩) 1 1 = 0 := by
  refine ⟨fun _ _ => rfl, ?_, ?_, rfl⟩
  · intro t slew load h
    by_cases hv : t.values = [] <;>
      rcases h with h | h | h <;> simp [interpolate_timing_value, hv, h]
  · intro t slew load h
    by_cases hv : t.values = [] <;>
      by_cases h1 : t.index_1 = [] <;>
      by_cases h2 : t.index_2 = [] <;>
      simp [interpolate_timing_value, hv, h1, h2, h]

/-- Claim C10 witness: a table with an empty index_1 yields 0.0. -/
theorem interpolate_returns_zero_on_missing_or_error_witness :
    interpolate_timing_value (some ⟨[], [1], [[1]]⟩) 0 0 = 0 :=
  interpolate_returns_zero_on_missing_or_error.2.1 ⟨[], [1], [[1]]⟩ 0 0 (Or.inl rfl)

/-- Claim C7 counterexample: the classifier of test.py checks the
token and before the token nand, so the cell name NAND2X1, which
contains NAND, is classified into the AND type. -/
theorem infer_cell_type_nand_maps_to_and :
    infer_cell_type ("NAND2X1".toList) 3 = "AND".toList ∧
    containsSub ("NAND".toList) ("NAND2X1".toList) = true := by
  constructor <;> rfl

/-- Claim C7 amended: in the test_utf8 classifier the NAND rule comes
before the AND rule, so a cell name whose base, the prefix before the
first lowercase x, contains NAND is never classified into an AND
type; the classifier ignores its function argument; and AND2X1 maps
to AND2. -/
theorem determine_cell_type_nand_priority :
    (∀ cell_name fn : List Char,
      containsSub ("NAND".toList) (cell_name.takeWhile (fun c => c ≠ 'x')) = true →
      determine_cell_type cell_name fn ∈
        ["INV".toList, "BUF".toList, "NAND".toList,
         "NAND2".toList, "NAND3".toList, "NAND4".toList]) ∧
    (∀ cell_name f1 f2 : List Char,
      determine_cell_type cell_name f1 = determine_cell_type cell_name f2) ∧
    determine_cell_type ("AND2X1".toList) [] = "AND2".toList := by
  refine ⟨?_, fun _ _ _ => rfl, rfl⟩
  intro nm fn h
  simp only [determine_cell_type]
  split_ifs <;> simp_all

/-- Claim C7 witness: a name whose base contains NAND lands in the
NAND family of types. -/
theorem determine_cell_type_nand_priority_witness :
    determine_cell_type ("NANDX1".toList) [] ∈
      ["INV".toList, "BUF".toList, "NAND".toList,
       "NAND2".toList, "NAND3".toList, "NAND4".toList] :=
  determine_cell_type_nand_priority.1 ("NANDX1".toList) [] (by decide)

/-- Claim C2 counterexample: a values group with three rows against an
index_1 of length two is decoded without any failure and the
mismatched, fully exposed table is returned; no shape check exists and
no decode-failure value is ever produced. -/
theorem parse_lookup_table_exposes_mismatch :
    ((parse_lookup_table ⟨some (("\"1, 2\"").toList), some (("\"1, 2\"").toList),
        some (("\"1, 2 \\ 3, 4 \\ 5, 6\"").toList)⟩).values.length = 3) ∧
    ((parse_lookup_table ⟨some (("\"1, 2\"").toList), some (("\"1, 2\"").toList),
        some (("\"1, 2 \\ 3, 4 \\ 5, 6\"").toList)⟩).index_1.length = 2) ∧
    ((parse_lookup_table ⟨some (("\"1, 2\"").toList), some (("\"1, 2\"").toList),
        some (("\"1, 2 \\ 3, 4 \\ 5, 6\"").toList)⟩).values ≠ []) := by
  refine ⟨rfl, rfl, by decide⟩

/-- Claim C2 amended: on a float-parse failure the decoder does not
fail; it returns the partially filled record, keeping the fields
parsed before the failing one and leaving the rest empty. Stated for a
failure in index_2 after a successful index_1. -/
theorem parse_lookup_table_partial_on_failure (t : RawTable) (s1 s2 : List Char) (l1 : List ℚ)
    (h1 : t.index_1 = some s1) (hp1 : parseFloatList? (stripQuotes s1) = some l1)
    (h2 : t.index_2 = some s2) (hp2 : parseFloatList? (stripQuotes s2) = none) :
    parse_lookup_table t = ⟨l1, [], []⟩ := by
  simp only [parse_lookup_table, h1, hp1, parseTableStep2, h2, hp2]

/-- Claim C2 witness: an unparsable entry in index_2 yields the
partial record with index_1 kept and everything else empty. -/
theorem parse_lookup_table_partial_on_failure_witness :
    parse_lookup_table ⟨some (("1, 2").toList), some (("1, x").toList),
        some (("1").toList)⟩ = ⟨[1, 2], [], []⟩ := by
  refine parse_lookup_table_partial_on_failure _ (("1, 2").toList) (("1, x").toList) [1, 2]
    rfl ?_ rfl rfl
  have h : parseFloatList? (stripQuotes (("1, 2").toList)) =
      some [((1 : ℕ) : ℚ) / 10 ^ 0, ((2 : ℕ) : ℚ) / 10 ^ 0] := rfl
  rw [h]
  norm_num

/-- Key list after a dictionary assignment: an existing key keeps the
key list unchanged, a new key is appended at the end. -/
theorem cellKeys_upsert (k : List Char) (v : CellInfo) (m : List (List Char × CellInfo)) :
    cellKeys (upsertCell k v m) =
      if k ∈ cellKeys m then cellKeys m else cellKeys m ++ [k] := by
  unfold upsertCell
  split_ifs with hk
  · simp only [cellKeys, List.map_map]
    apply List.map_congr_left
    intro p _
    by_cases hp : p.1 = k
    · simp [Function.comp, hp]
    · simp [Function.comp, hp]
  · simp [cellKeys]

/-- Membership in the key list survives a dictionary assignment. -/
theorem mem_cellKeys_upsert_of_mem (k : List Char) (v : CellInfo)
    (m : List (List Char × CellInfo)) (a : List Char) (ha : a ∈ cellKeys m) :
    a ∈ cellKeys (upsertCell k v m) := by
  rw [cellKeys_upsert]
  split_ifs with h
  · exact ha
  · exact List.mem_append_left _ ha

/-- The assigned key is in the key list after the assignment. -/
theorem self_mem_cellKeys_upsert (k : List Char) (v : CellInfo)
    (m : List (List Char × CellInfo)) : k ∈ cellKeys (upsertCell k v m) := by
  rw [cellKeys_upsert]
  split_ifs with h
  · exact h
  · simp

/-- Keys present before the cell loop are still present after it. -/
theorem mem_cellKeys_fold (hs : List (List Char × Option (List Char))) :
    ∀ (m : List (List Char × CellInfo)) (a : List Char), a ∈ cellKeys m →
      a ∈ cellKeys (hs.foldl processCellsStep m) := by
  induction hs with
  | nil => exact fun _ _ ha => ha
  | cons p rest ih =>
    intro m a ha
    rw [List.foldl_cons]
    apply ih
    unfold processCellsStep
    cases hp : p.2 with
    | none => exact ha
    | some b => exact mem_cellKeys_upsert_of_mem _ _ _ _ ha

/-- Every header that comes with an extracted body ends up, by name,
in the cell dictionary built by the loop. -/
theorem mem_cellKeys_processFold (hs : List (List Char × Option (List Char)))
    (nm b : List Char) (h : (nm, some b) ∈ hs) :
    ∀ m, nm ∈ cellKeys (hs.foldl processCellsStep m) := by
  induction hs with
  | nil => cases h
  | cons p rest ih =>
    intro m
    rw [List.foldl_cons]
    rcases List.mem_cons.mp h with heq | hmem
    · apply mem_cellKeys_fold
      rw [← heq]
      exact self_mem_cellKeys_upsert _ _ _
    · exact ih hmem (processCellsStep m p)

/-- Claim C5: a cell header whose body never resolves to a balanced
brace span is recorded with no body and contributes nothing to the
cell dictionary — the parse result is the same as if the header were
absent — and every header of the same text that does come with a
balanced body is still parsed into the dictionary. -/
theorem unbalanced_cell_skipped_later_cells_parsed (content : List Char)
    (pre post : List (List Char × Option (List Char))) (nm : List Char)
    (h : extractCells content = pre ++ (nm, none) :: post) :
    processCells (extractCells content) = processCells (pre ++ post) ∧
    ∀ nm2 b, (nm2, some b) ∈ extractCells content →
      nm2 ∈ cellKeys (processCells (extractCells content)) := by
  constructor
  · rw [h]
    unfold processCells
    rw [List.foldl_append, List.foldl_append, List.foldl_cons]
    rfl
  · intro nm2 b hb
    exact mem_cellKeys_processFold _ nm2 b hb []

/-- Claim C5 witness: a text whose first cell has one extra opening
brace loses only that cell; the second, well-formed cell still
parses. -/
theorem unbalanced_cell_skipped_later_cells_parsed_witness :
    processCells (extractCells (("cell (A) \x7b \x7b \x7d cell (B) \x7b \x7d").toList)) =
      processCells ([] ++ [(("B").toList, some [' '])]) ∧
    ∀ nm2 b,
      (nm2, some b) ∈ extractCells (("cell (A) \x7b \x7b \x7d cell (B) \x7b \x7d").toList) →
      nm2 ∈ cellKeys
        (processCells (extractCells (("cell (A) \x7b \x7b \x7d cell (B) \x7b \x7d").toList))) :=
  unbalanced_cell_skipped_later_cells_parsed _ [] [(("B").toList, some [' '])]
    (("A").toList) (by rfl)

/-- Claim C6 counterexample: two cell headers carrying the same name
produce one dictionary entry, so the parsed cell count is below the
header count. -/
theorem cell_count_duplicate_header_names :
    (extractCells (("cell (A) \x7b \x7d cell (A) \x7b \x7d").toList)).length = 2 ∧
    (processCells (extractCells (("cell (A) \x7b \x7d cell (A) \x7b \x7d").toList))).length
      = 1 := by
  constructor <;> rfl

/-- Nodup of the key list survives a dictionary assignment. -/
theorem nodup_cellKeys_upsert (k : List Char) (v : CellInfo)
    (m : List (List Char × CellInfo)) (hm : (cellKeys m).Nodup) :
    (cellKeys (upsertCell k v m)).Nodup := by
  rw [cellKeys_upsert]
  split_ifs with h
  · exact hm
  · simp [List.nodup_append, hm, h]

/-- Nodup of the key list survives the whole cell loop. -/
theorem nodup_cellKeys_fold (hs : List (List Char × Option (List Char))) :
    ∀ m, (cellKeys m).Nodup → (cellKeys (hs.foldl processCellsStep m)).Nodup := by
  induction hs with
  | nil => exact fun _ hm => hm
  | cons p rest ih =>
    intro m hm
    rw [List.foldl_cons]
    apply ih
    unfold processCellsStep
    cases hp : p.2 with
    | none => exact hm
    | some b => exact nodup_cellKeys_upsert _ _ _ hm

/-- When every header has a body, the key set after the loop is the
key set before it together with all header names. -/
theorem toFinset_cellKeys_fold (hs : List (List Char × Option (List Char)))
    (hall : ∀ p ∈ hs, p.2 ≠ none) :
    ∀ m, (cellKeys (hs.foldl processCellsStep m)).toFinset
      = (cellKeys m).toFinset ∪ (hs.map Prod.fst).toFinset := by
  induction hs with
  | nil => intro m; simp
  | cons p rest ih =>
    intro m
    rw [List.foldl_cons]
    obtain ⟨b, hb⟩ := Option.ne_none_iff_exists.mp (hall p (List.mem_cons_self p rest))
    have hstep : processCellsStep m p = upsertCell p.1 (parse_single_cell_complete p.1 b) m := by
      unfold processCellsStep
      rw [← hb]
    rw [hstep, ih (fun q hq => hall q (List.mem_cons_of_mem _ hq)), cellKeys_upsert]
    split_ifs with hmem
    · ext a
      simp only [Finset.mem_union, List.mem_toFinset, List.map_cons, List.toFinset_cons,
        Finset.mem_insert]
      constructor
      · rintro (h | h)
        · exact Or.inl h
        · exact Or.inr (Or.inr h)
      · rintro (h | rfl | h)
        · exact Or.inl h
        · exact Or.inl hmem
        · exact Or.inr h
    · ext a
      simp only [Finset.mem_union, List.mem_toFinset, List.map_cons, List.toFinset_cons,
        Finset.mem_insert, List.mem_append, List.mem_singleton]
      tauto

/-- Claim C6 amended: when every located cell header resolves to a
balanced body, the parsed cell count equals the number of distinct
header names; a duplicated name is stored once, the later definition
overwriting the earlier one. -/
theorem cell_count_eq_distinct_header_names (content : List Char)
    (hall : ∀ p ∈ extractCells content, p.2 ≠ none) :
    (processCells (extractCells content)).length
      = ((extractCells content).map Prod.fst).toFinset.card := by
  have h1 : (cellKeys (processCells (extractCells content))).Nodup :=
    nodup_cellKeys_fold _ [] (by simp [cellKeys])
  have h2 := toFinset_cellKeys_fold (extractCells content) hall []
  have h3 : (processCells (extractCells content)).length
      = (cellKeys (processCells (extractCells content))).length := by
    simp [cellKeys]
  rw [h3, ← List.toFinset_card_of_nodup h1]
  unfold processCells
  rw [h2]
  simp [cellKeys]

/-- Claim C6 witness: two well-formed cells with distinct names give
two dictionary entries. -/
theorem cell_count_eq_distinct_header_names_witness :
    (processCells (extractCells (("cell (A) \x7b \x7d cell (B) \x7b \x7d").toList))).length
      = ((extractCells (("cell (A) \x7b \x7d cell (B) \x7b \x7d").toList)).map
          Prod.fst).toFinset.card :=
  cell_count_eq_distinct_header_names _ (by decide)

/-- One unfolding step of the fueled bracket loop. -/
theorem bracketFuel_succ (fuel : ℕ) (idx : List ℚ) (q : ℚ) (i1 : ℕ) :
    bracketFuel (fuel + 1) idx q i1 =
      if i1 + 1 < idx.length ∧ idx.getD (i1 + 1) 0 < q then bracketFuel fuel idx q (i1 + 1)
      else i1 := rfl

/-- A strictly sorted axis is strictly monotone in its positions. -/
theorem pairwise_getD_lt (idx : List ℚ) (hs : idx.Pairwise (fun a b => a < b))
    {a b : ℕ} (hab : a < b) (hb : b < idx.length) :
    idx.getD a 0 < idx.getD b 0 := by
  have ha : a < idx.length := lt_trans hab hb
  rw [List.getD_eq_getElem idx 0 ha, List.getD_eq_getElem idx 0 hb]
  exact List.pairwise_iff_getElem.mp hs a b ha hb hab

/-- When every axis entry is below the query, the fueled bracket loop
runs to the last position. -/
theorem bracketFuel_all_lt (idx : List ℚ) (q : ℚ)
    (hall : ∀ k, k < idx.length → idx.getD k 0 < q) :
    ∀ fuel p, idx.length - 1 - p ≤ fuel → p ≤ idx.length - 1 →
      bracketFuel fuel idx q p = idx.length - 1 := by
  intro fuel
  induction fuel with
  | zero =>
    intro p h1 h2
    have hp : p = idx.length - 1 := by omega
    rw [hp]
    rfl
  | succ n ih =>
    intro p h1 h2
    rw [bracketFuel_succ]
    by_cases hp : p = idx.length - 1
    · rw [if_neg]
      · exact hp
      · rintro ⟨hc1, _⟩
        omega
    · rw [if_pos ⟨by omega, hall (p + 1) (by omega)⟩]
      exact ih (p + 1) (by omega) (by omega)

/-- When every axis entry is below the query, the bracket search
returns the last position: queries beyond the upper edge are clamped
to it. -/
theorem bracketAux_all_lt (idx : List ℚ) (q : ℚ)
    (hall : ∀ k, k < idx.length → idx.getD k 0 < q) :
    bracketAux idx q 0 = idx.length - 1 :=
  bracketFuel_all_lt idx q hall idx.length 0 (by omega) (by omega)

/-- On a strictly sorted axis, bracketing the exact grid value at
position i stops at position i minus one. -/
theorem bracketFuel_grid (idx : List ℚ) (i : ℕ)
    (hs : idx.Pairwise (fun a b => a < b)) (hi : i < idx.length) :
    ∀ fuel p, i - 1 - p ≤ fuel → p ≤ i - 1 →
      bracketFuel fuel idx (idx.getD i 0) p = i - 1 := by
  intro fuel
  induction fuel with
  | zero =>
    intro p h1 h2
    have hp : p = i - 1 := by omega
    rw [hp]
    rfl
  | succ n ih =>
    intro p h1 h2
    rw [bracketFuel_succ]
    by_cases hp : p = i - 1
    · rw [if_neg]
      · exact hp
      · rintro ⟨hc1, hc2⟩
        rcases Nat.eq_zero_or_pos i with hz | hpos
        · subst hz
          have hp0 : p = 0 := by omega
          subst hp0
          have h01 : idx.getD 0 0 < idx.getD 1 0 :=
            pairwise_getD_lt idx hs (by omega) (by omega)
          exact absurd hc2 (not_lt.mpr h01.le)
        · have hpi : p + 1 = i := by omega
          rw [hpi] at hc2
          exact lt_irrefl _ hc2
    · rw [if_pos ⟨by omega, pairwise_getD_lt idx hs (show p + 1 < i by omega) hi⟩]
      exact ih (p + 1) (by omega) (by omega)

/-- Bracket search at an exact grid value. -/
theorem bracketAux_grid (idx : List ℚ) (i : ℕ)
    (hs : idx.Pairwise (fun a b => a < b)) (hi : i < idx.length) :
    bracketAux idx (idx.getD i 0) 0 = i - 1 :=
  bracketFuel_grid idx i hs hi idx.length 0 (by omega) (by omega)

/-- Checked matrix access succeeds inside a rectangular matrix. -/
theorem getV?_eq (vals : List (List ℚ)) (n2 : ℕ) (hcols : ∀ r ∈ vals, r.length = n2)
    {a b : ℕ} (ha : a < vals.length) (hb : b < n2) :
    getV? vals a b = some ((vals.getD a []).getD b 0) := by
  have hr : vals[a] ∈ vals := List.getElem_mem ha
  have hl : b < vals[a].length := by rw [hcols _ hr]; exact hb
  unfold getV?
  rw [List.getElem?_eq_getElem ha, Option.some_bind, List.getElem?_eq_getElem hl,
    List.getD_eq_getElem vals [] ha, List.getD_eq_getElem _ 0 hl]

/-- Claim C3 counterexample: on the table with index_1 [1, 2],
index_2 [1] and values [[0], [10]], the query slew 0 lies below the
axis minimum 1; clamping would return the edge value 0, but the
interpolator computes the fractional position minus one and linearly
extrapolates to minus ten. -/
theorem interpolate_extrapolates_below_min :
    interpolate_timing_value (some ⟨[1, 2], [1], [[0], [10]]⟩) 0 1 = -10 ∧
    ((-10 : ℚ) ≠ 0) := by
  constructor
  · have e1 : interpolate_timing_value (some ⟨[1, 2], [1], [[0], [10]]⟩) 0 1
        = (interpolateCore ⟨[1, 2], [1], [[0], [10]]⟩ 0 1).getD 0 := rfl
    have e2 : interpolateCore ⟨[1, 2], [1], [[0], [10]]⟩ 0 1
        = (if ((2 : ℚ) - 1 = 0) then none else
            some ((0 : ℚ) * (1 - ((0 : ℚ) - 1) / ((2 : ℚ) - 1)) +
              10 * (((0 : ℚ) - 1) / ((2 : ℚ) - 1)))) := rfl
    rw [e1, e2]
    norm_num
  · norm_num

/-- Claim C3 amended: clamping holds at the upper edge only. When the
query exceeds every entry of both axes, the bracket search stops at
the last position on each axis and the interpolator returns the
corner edge value without extrapolating; below the minimum it
extrapolates instead. -/
theorem interpolate_clamps_above_max (t : TableInfo) (slew load : ℚ)
    (hne1 : t.index_1 ≠ []) (hne2 : t.index_2 ≠ [])
    (hrows : t.values.length = t.index_1.length)
    (hcols : ∀ r ∈ t.values, r.length = t.index_2.length)
    (hs : ∀ k, k < t.index_1.length → t.index_1.getD k 0 < slew)
    (hl : ∀ k, k < t.index_2.length → t.index_2.getD k 0 < load) :
    interpolate_timing_value (some t) slew load
      = (t.values.getD (t.index_1.length - 1) []).getD (t.index_2.length - 1) 0 := by
  have hn1 : 0 < t.index_1.length := List.length_pos.mpr hne1
  have hn2 : 0 < t.index_2.length := List.length_pos.mpr hne2
  have hnev : t.values ≠ [] := by
    intro hv
    rw [hv] at hrows
    simp only [List.length_nil] at hrows
    omega
  have hb1 : bracketAux t.index_1 slew 0 = t.index_1.length - 1 := bracketAux_all_lt _ _ hs
  have hb2 : bracketAux t.index_2 load 0 = t.index_2.length - 1 := bracketAux_all_lt _ _ hl
  have hm1 : min (t.index_1.length - 1 + 1) (t.index_1.length - 1) = t.index_1.length - 1 := by
    omega
  have hm2 : min (t.index_2.length - 1 + 1) (t.index_2.length - 1) = t.index_2.length - 1 := by
    omega
  have hcore : interpolateCore t slew load
      = some ((t.values.getD (t.index_1.length - 1) []).getD (t.index_2.length - 1) 0) := by
    simp only [interpolateCore]
    rw [hb1, hb2, hm1, hm2, if_pos ⟨rfl, rfl⟩]
    exact getV?_eq t.values _ hcols (by omega) (by omega)
  simp only [interpolate_timing_value]
  rw [if_neg hnev, if_neg (by simp [hne1, hne2, hnev]), hcore]
  rfl

/-- Claim C3 witness: querying far beyond both axis maxima of a
two-by-two table returns the last corner value. -/
theorem interpolate_clamps_above_max_witness :
    interpolate_timing_value (some ⟨[1, 2], [1, 2], [[1, 2], [3, 4]]⟩) 100 100 = 4 := by
  have h := interpolate_clamps_above_max ⟨[1, 2], [1, 2], [[1, 2], [3, 4]]⟩ 100 100
    (by decide) (by decide) (by decide) (by decide) (by decide) (by decide)
  exact h.trans rfl

/-- Core of the grid-point property: on a strictly sorted rectangular
table, the interpolation body evaluated at the exact grid point with
indices i and j returns exactly the stored value at row i, column j. -/
theorem interpolateCore_grid (t : TableInfo) (i j : ℕ)
    (hs1 : t.index_1.Pairwise (fun a b => a < b))
    (hs2 : t.index_2.Pairwise (fun a b => a < b))
    (hrows : t.values.length = t.index_1.length)
    (hcols : ∀ r ∈ t.values, r.length = t.index_2.length)
    (hi : i < t.index_1.length) (hj : j < t.index_2.length) :
    interpolateCore t (t.index_1.getD i 0) (t.index_2.getD j 0)
      = some ((t.values.getD i []).getD j 0) := by
  have hb1 : bracketAux t.index_1 (t.index_1.getD i 0) 0 = i - 1 := bracketAux_grid _ i hs1 hi
  have hb2 : bracketAux t.index_2 (t.index_2.getD j 0) 0 = j - 1 := bracketAux_grid _ j hs2 hj
  simp only [interpolateCore]
  rw [hb1, hb2]
  by_cases hL1 : t.index_1.length = 1
  · have hi0 : i = 0 := by omega
    subst hi0
    simp only [Nat.zero_sub, Nat.zero_add]
    have hm1 : min 1 (t.index_1.length - 1) = 0 := by omega
    by_cases hL2 : t.index_2.length = 1
    · have hj0 : j = 0 := by omega
      subst hj0
      simp only [Nat.zero_sub, Nat.zero_add]
      have hm2 : min 1 (t.index_2.length - 1) = 0 := by omega
      rw [hm1, hm2, if_pos ⟨rfl, rfl⟩]
      exact getV?_eq t.values _ hcols (by omega) (by omega)
    · have hL2b : 2 ≤ t.index_2.length := by omega
      by_cases hj0 : j = 0
      · subst hj0
        simp only [Nat.zero_sub, Nat.zero_add]
        have hm2 : min 1 (t.index_2.length - 1) = 1 := by omega
        rw [hm1, hm2, if_neg (by omega), if_pos rfl]
        have h01 : t.index_2.getD 0 0 < t.index_2.getD 1 0 :=
          pairwise_getD_lt _ hs2 (by omega) (by omega)
        rw [if_neg (sub_ne_zero.mpr h01.ne')]
        rw [getV?_eq t.values _ hcols (show (0 : ℕ) < t.values.length by omega)
            (show (0 : ℕ) < t.index_2.length by omega), Option.some_bind,
          getV?_eq t.values _ hcols (show (0 : ℕ) < t.values.length by omega)
            (show (1 : ℕ) < t.index_2.length by omega), Option.some_bind]
        rw [sub_self, zero_div]
        norm_num
      · have hj1 : 1 ≤ j := by omega
        have hm2 : min (j - 1 + 1) (t.index_2.length - 1) = j := by omega
        rw [hm1, hm2, if_neg (by omega), if_pos rfl]
        have hjj : t.index_2.getD (j - 1) 0 < t.index_2.getD j 0 :=
          pairwise_getD_lt _ hs2 (by omega) hj
        rw [if_neg (sub_ne_zero.mpr hjj.ne')]
        rw [getV?_eq t.values _ hcols (show (0 : ℕ) < t.values.length by omega)
            (show j - 1 < t.index_2.length by omega), Option.some_bind,
          getV?_eq t.values _ hcols (show (0 : ℕ) < t.values.length by omega) hj,
          Option.some_bind]
        rw [div_self (sub_ne_zero.mpr hjj.ne')]
        norm_num
  · have hL1b : 2 ≤ t.index_1.length := by omega
    by_cases hi0 : i = 0
    · subst hi0
      simp only [Nat.zero_sub, Nat.zero_add]
      have hm1 : min 1 (t.index_1.length - 1) = 1 := by omega
      have h01x : t.index_1.getD 0 0 < t.index_1.getD 1 0 :=
        pairwise_getD_lt _ hs1 (by omega) (by omega)
      by_cases hL2 : t.index_2.length = 1
      · have hj0 : j = 0 := by omega
        subst hj0
        simp only [Nat.zero_sub, Nat.zero_add]
        have hm2 : min 1 (t.index_2.length - 1) = 0 := by omega
        rw [hm1, hm2, if_neg (by omega), if_neg (by omega), if_pos rfl]
        rw [if_neg (sub_ne_zero.mpr h01x.ne')]
        rw [getV?_eq t.values _ hcols (show (0 : ℕ) < t.values.length by omega)
            (show (0 : ℕ) < t.index_2.length by omega), Option.some_bind,
          getV?_eq t.values _ hcols (show (1 : ℕ) < t.values.length by omega)
            (show (0 : ℕ) < t.index_2.length by omega), Option.some_bind]
        rw [sub_self, zero_div]
        norm_num
      · have hL2b : 2 ≤ t.index_2.length := by omega
        by_cases hj0 : j = 0
        · subst hj0
          simp only [Nat.zero_sub, Nat.zero_add]
          have hm2 : min 1 (t.index_2.length - 1) = 1 := by omega
          have h01y : t.index_2.getD 0 0 < t.index_2.getD 1 0 :=
            pairwise_getD_lt _ hs2 (by omega) (by omega)
          rw [hm1, hm2, if_neg (by omega), if_neg (by omega), if_neg (by omega)]
          rw [if_neg (not_or.mpr ⟨sub_ne_zero.mpr h01x.ne', sub_ne_zero.mpr h01y.ne'⟩)]
          rw [getV?_eq t.values _ hcols (show (0 : ℕ) < t.values.length by omega)
              (show (0 : ℕ) < t.index_2.length by omega), Option.some_bind,
            getV?_eq t.values _ hcols (show (0 : ℕ) < t.values.length by omega)
              (show (1 : ℕ) < t.index_2.length by omega), Option.some_bind,
            getV?_eq t.values _ hcols (show (1 : ℕ) < t.values.length by omega)
              (show (0 : ℕ) < t.index_2.length by omega), Option.some_bind,
            getV?_eq t.values _ hcols (show (1 : ℕ) < t.values.length by omega)
              (show (1 : ℕ) < t.index_2.length by omega), Option.some_bind]
          rw [sub_self, zero_div, sub_self, zero_div]
          norm_num
        · have hj1 : 1 ≤ j := by omega
          have hm2 : min (j - 1 + 1) (t.index_2.length - 1) = j := by omega
          have hjj : t.index_2.getD (j - 1) 0 < t.index_2.getD j 0 :=
            pairwise_getD_lt _ hs2 (by omega) hj
          rw [hm1, hm2, if_neg (by omega), if_neg (by omega), if_neg (by omega)]
          rw [if_neg (not_or.mpr ⟨sub_ne_zero.mpr h01x.ne', sub_ne_zero.mpr hjj.ne'⟩)]
          rw [getV?_eq t.values _ hcols (show (0 : ℕ) < t.values.length by omega)
              (show j - 1 < t.index_2.length by omega), Option.some_bind,
            getV?_eq t.values _ hcols (show (0 : ℕ) < t.values.length by omega) hj,
            Option.some_bind,
            getV?_eq t.values _ hcols (show (1 : ℕ) < t.values.length by omega)
              (show j - 1 < t.index_2.length by omega), Option.some_bind,
            getV?_eq t.values _ hcols (show (1 : ℕ) < t.values.length by omega) hj,
            Option.some_bind]
          rw [sub_self, zero_div, div_self (sub_ne_zero.mpr hjj.ne')]
          norm_num
    · have hi1 : 1 ≤ i := by omega
      have hm1 : min (i - 1 + 1) (t.index_1.length - 1) = i := by omega
      have hii : t.index_1.getD (i - 1) 0 < t.index_1.getD i 0 :=
        pairwise_getD_lt _ hs1 (by omega) hi
      by_cases hL2 : t.index_2.length = 1
      · have hj0 : j = 0 := by omega
        subst hj0
        simp only [Nat.zero_sub, Nat.zero_add]
        have hm2 : min 1 (t.index_2.length - 1) = 0 := by omega
        rw [hm1, hm2, if_neg (by omega), if_neg (by omega), if_pos rfl]
        rw [if_neg (sub_ne_zero.mpr hii.ne')]
        rw [getV?_eq t.values _ hcols (show i - 1 < t.values.length by omega)
            (show (0 : ℕ) < t.index_2.length by omega), Option.some_bind,
          getV?_eq t.values _ hcols (show i < t.values.length by omega)
            (show (0 : ℕ) < t.index_2.length by omega), Option.some_bind]
        rw [div_self (sub_ne_zero.mpr hii.ne')]
        norm_num
      · have hL2b : 2 ≤ t.index_2.length := by omega
        by_cases hj0 : j = 0
        · subst hj0
          simp only [Nat.zero_sub, Nat.zero_add]
          have hm2 : min 1 (t.index_2.length - 1) = 1 := by omega
          have h01y : t.index_2.getD 0 0 < t.index_2.getD 1 0 :=
            pairwise_getD_lt _ hs2 (by omega) (by omega)
          rw [hm1, hm2, if_neg (by omega), if_neg (by omega), if_neg (by omega)]
          rw [if_neg (not_or.mpr ⟨sub_ne_zero.mpr hii.ne', sub_ne_zero.mpr h01y.ne'⟩)]
          rw [getV?_eq t.values _ hcols (show i - 1 < t.values.length by omega)
              (show (0 : ℕ) < t.index_2.length by omega), Option.some_bind,
            getV?_eq t.values _ hcols (show i - 1 < t.values.length by omega)
              (show (1 : ℕ) < t.index_2.length by omega), Option.some_bind,
            getV?_eq t.values _ hcols (show i < t.values.length by omega)
              (show (0 : ℕ) < t.index_2.length by omega), Option.some_bind,
            getV?_eq t.values _ hcols (show i < t.values.length by omega)
              (show (1 : ℕ) < t.index_2.length by omega), Option.some_bind]
          rw [sub_self, zero_div, div_self (sub_ne_zero.mpr hii.ne')]
          norm_num
        · have hj1 : 1 ≤ j := by omega
          have hm2 : min (j - 1 + 1) (t.index_2.length - 1) = j := by omega
          have hjj : t.index_2.getD (j - 1) 0 < t.index_2.getD j 0 :=
            pairwise_getD_lt _ hs2 (by omega) hj
          rw [hm1, hm2, if_neg (by omega), if_neg (by omega), if_neg (by omega)]
          rw [if_neg (not_or.mpr ⟨sub_ne_zero.mpr hii.ne', sub_ne_zero.mpr hjj.ne'⟩)]
          rw [getV?_eq t.values _ hcols (show i - 1 < t.values.length by omega)
              (show j - 1 < t.index_2.length by omega), Option.some_bind,
            getV?_eq t.values _ hcols (show i - 1 < t.values.length by omega) hj,
            Option.some_bind,
            getV?_eq t.values _ hcols (show i < t.values.length by omega)
              (show j - 1 < t.index_2.length by omega), Option.some_bind,
            getV?_eq t.values _ hcols (show i < t.values.length by omega) hj,
            Option.some_bind]
          rw [div_self (sub_ne_zero.mpr hii.ne'), div_self (sub_ne_zero.mpr hjj.ne')]
          norm_num

/-- Claim C4: on a decoded lookup table with strictly increasing
index axes and a rectangular values matrix, interpolating at the
exact grid point given by positions i and j on the two axes returns
exactly the stored value at row i, column j; the rational model makes
the equality exact. -/
theorem interpolate_grid_exact (t : TableInfo) (i j : ℕ)
    (hs1 : t.index_1.Pairwise (fun a b => a < b))
    (hs2 : t.index_2.Pairwise (fun a b => a < b))
    (hrows : t.values.length = t.index_1.length)
    (hcols : ∀ r ∈ t.values, r.length = t.index_2.length)
    (hi : i < t.index_1.length) (hj : j < t.index_2.length) :
    interpolate_timing_value (some t) (t.index_1.getD i 0) (t.index_2.getD j 0)
      = (t.values.getD i []).getD j 0 := by
  have hne1 : t.index_1 ≠ [] := by
    intro h
    rw [h] at hi
    simp at hi
  have hne2 : t.index_2 ≠ [] := by
    intro h
    rw [h] at hj
    simp at hj
  have hnev : t.values ≠ [] := by
    intro h
    rw [h] at hrows
    simp only [List.length_nil] at hrows
    omega
  simp only [interpolate_timing_value]
  rw [if_neg hnev, if_neg (by simp [hne1, hne2, hnev]),
    interpolateCore_grid t i j hs1 hs2 hrows hcols hi hj]
  rfl

/-- Claim C4 witness: on a concrete two-by-two table, querying the
grid point at row 1, column 0 returns the stored entry 7. -/
theorem interpolate_grid_exact_witness :
    interpolate_timing_value (some ⟨[1, 2], [3, 4], [[5, 6], [7, 8]]⟩) 2 3 = 7 := by
  have h := interpolate_grid_exact ⟨[1, 2], [3, 4], [[5, 6], [7, 8]]⟩ 1 0
    (by decide) (by decide) (by decide) (by decide) (by decide) (by decide)
  exact h.trans rfl

/-- Claim C8: for positive axis bounds with min below max and a
sample count of at least two, the log-space sampler returns exactly n
points, strictly increasing, whose first point is exactly the minimum
and whose last point is exactly the maximum; in the real-number model
the endpoint equalities are exact. -/
theorem log_samples_spec (mn mx : ℝ) (n : ℕ) (h0 : 0 < mn) (hlt : mn < mx) (hn : 2 ≤ n) :
    (logSamples mn mx n).length = n ∧
    (logSamples mn mx n).Pairwise (fun a b => a < b) ∧
    (logSamples mn mx n).getD 0 0 = mn ∧
    (logSamples mn mx n).getD (n - 1) 0 = mx := by
  have hlog : Real.log mn < Real.log mx := Real.log_lt_log h0 hlt
  have hden : (0 : ℝ) < (n : ℝ) - 1 := by
    have h2 : (2 : ℝ) ≤ (n : ℝ) := by exact_mod_cast hn
    linarith
  have hlen : (logSamples mn mx n).length = n := by simp [logSamples, linspace]
  refine ⟨hlen, ?_, ?_, ?_⟩
  · simp only [logSamples, linspace, List.map_map]
    rw [List.pairwise_map]
    apply (List.pairwise_lt_range n).imp
    intro a b hab
    simp only [Function.comp]
    apply Real.exp_lt_exp.mpr
    have hcast : (a : ℝ) < (b : ℝ) := by exact_mod_cast hab
    have hnum : (Real.log mx - Real.log mn) * a < (Real.log mx - Real.log mn) * b :=
      mul_lt_mul_of_pos_left hcast (by linarith)
    have hdiv : (Real.log mx - Real.log mn) * a / ((n : ℝ) - 1)
        < (Real.log mx - Real.log mn) * b / ((n : ℝ) - 1) :=
      (div_lt_div_iff_of_pos_right hden).mpr hnum
    linarith
  · rw [List.getD_eq_getElem _ _ (by rw [hlen]; omega)]
    simp only [logSamples, linspace, List.getElem_map, List.getElem_range]
    push_cast
    rw [mul_zero, zero_div, add_zero]
    exact Real.exp_log h0
  · rw [List.getD_eq_getElem _ _ (by rw [hlen]; omega)]
    simp only [logSamples, linspace, List.getElem_map, List.getElem_range]
    rw [Nat.cast_sub (by omega : 1 ≤ n), Nat.cast_one, mul_div_assoc,
      div_self (ne_of_gt hden), mul_one]
    have harith : Real.log mn + (Real.log mx - Real.log mn) = Real.log mx := by ring
    rw [harith]
    exact Real.exp_log (lt_trans h0 hlt)

/-- Claim C8 witness: the spec scenario with bounds one thousandth
and ten and four samples. -/
theorem log_samples_spec_witness :
    (logSamples (1 / 1000) 10 4).length = 4 ∧
    (logSamples (1 / 1000) 10 4).Pairwise (fun a b => a < b) ∧
    (logSamples (1 / 1000) 10 4).getD 0 0 = 1 / 1000 ∧
    (logSamples (1 / 1000) 10 4).getD (4 - 1) 0 = 10 :=
  log_samples_spec (1 / 1000) 10 4 (by norm_num) (by norm_num) (by norm_num)

/-- Sum of the lengths of a constant-length family is the product. -/
theorem sum_map_length_const {α β : Type} (l : List α) (f : α → List β) (m : ℕ)
    (h : ∀ a, (f a).length = m) : (List.map (List.length ∘ f) l).sum = l.length * m := by
  induction l with
  | nil => simp
  | cons x xs ih =>
    simp only [List.map_cons, List.sum_cons, Function.comp_apply, h, ih, List.length_cons]
    ring

/-- Claim C9 counterexample: with no lookup tables at all the grid
generator does not fail and returns the full two-by-two list of
conditions; in Python those conditions are NaN-valued, and no
EmptyDomain error exists anywhere in the code. -/
theorem generate_input_conditions_empty_no_failure :
    (generate_input_conditions [] 2 2).length = 4 := by
  simp only [generate_input_conditions]
  rw [List.length_flatMap,
    sum_map_length_const _ _ 2 (fun s => by simp [logSamples, linspace])]
  simp [logSamples, linspace]

/-- Claim C9 amended: the grid generator is total; for every input,
including a library with no tables, it returns exactly the product of
the two sample counts as the number of conditions, never an error. -/
theorem generate_input_conditions_length (ts : List (Option TableInfo))
    (numSlew numLoad : ℕ) :
    (generate_input_conditions ts numSlew numLoad).length = numSlew * numLoad := by
  simp only [generate_input_conditions]
  rw [List.length_flatMap,
    sum_map_length_const _ _ numLoad (fun s => by simp [logSamples, linspace])]
  simp [logSamples, linspace]
